import Mathlib

/-!
Verification of the encoding and sender logic of an AMQP 1.0 client library
(Azure/go-amqp core).  Buffers are modelled as lists of natural numbers,
each element standing for one byte (values are reduced modulo 256 exactly
where the Go code performs a byte conversion).  The definitions below are
transcriptions of the corresponding Go functions in encode.go, link.go and
sender.go.
-/

namespace Amqp

/-- Big-endian two-byte encoding, as written by buffer.WriteUint16. -/
def u16be (n : Nat) : List Nat :=
  [n / 256 % 256, n % 256]

/-- Big-endian four-byte encoding, as written by buffer.WriteUint32 and
binary.BigEndian.PutUint32. -/
def u32be (n : Nat) : List Nat :=
  [n / 16777216 % 256, n / 65536 % 256, n / 256 % 256, n % 256]

/-- Big-endian eight-byte encoding, as written by binary.BigEndian.PutUint64. -/
def u64be (n : Nat) : List Nat :=
  [n / 72057594037927936 % 256, n / 281474976710656 % 256,
   n / 1099511627776 % 256, n / 4294967296 % 256,
   n / 16777216 % 256, n / 65536 % 256, n / 256 % 256, n % 256]

/-- Decode a big-endian byte string to a natural number. -/
def beNat (l : List Nat) : Nat :=
  l.foldl (fun a b => a * 256 + b % 256) 0

/-- Overwrite the four bytes at index i with the big-endian encoding of v,
as binary.BigEndian.PutUint32(buf[i:], v) does on the backing array. -/
def setU32At (l : List Nat) (i : Nat) (v : Nat) : List Nat :=
  l.take i ++ u32be v ++ l.drop (i + 4)

/-! AMQP type codes used by the encoder (values fixed by the AMQP 1.0 type
system; the spec's concrete scenario exhibits 0x00 0x53 0x75 0xa0 for a
described binary data section). -/

def typeCodeNull : Nat := 0x40
def typeCodeList0 : Nat := 0x45
def typeCodeList32 : Nat := 0xd0
def typeCodeSmallUlong : Nat := 0x53
def typeCodeStr8 : Nat := 0xa1
def typeCodeStr32 : Nat := 0xb1
def typeCodeVbin8 : Nat := 0xa0
def typeCodeVbin32 : Nat := 0xb0

/-- A field to be marshaled by marshalComposite (encode.go marshalField).
The value field holds the bytes that marshal(wr, f.value) appends for the
field's value; omitted mirrors the Go field omit. -/
structure marshalField where
  value : List Nat
  omitted : Bool
deriving DecidableEq, Repr

/-- The loop of marshalComposite computing lastSetIdx: iterate over the
fields in order, remembering the index of every non-omitted field. -/
def lastSetIdxAux (acc : Int) (i : Nat) : List marshalField → Int
  | [] => acc
  | f :: fs => lastSetIdxAux (if f.omitted then acc else (i : Int)) (i + 1) fs

/-- lastSetIdx as computed by marshalComposite: the index of the last
non-omitted field, or -1 when every field is omitted. -/
def lastSetIdx (fields : List marshalField) : Int :=
  lastSetIdxAux (-1) 0 fields

/-- Specification-style description of the last non-omitted index, used to
state what lastSetIdx computes. -/
def lastNonOmitted : List marshalField → Option Nat
  | [] => none
  | f :: fs =>
    match lastNonOmitted fs with
    | some k => some (k + 1)
    | none => if f.omitted then none else some 0

/-- The bytes emitted for a prefix of the field list: a null type code for
an omitted field, the field's marshaled value otherwise. -/
def fieldBytes (fields : List marshalField) : List Nat :=
  (fields.map fun f => if f.omitted then [typeCodeNull] else f.value).flatten

/-- encode.go writeDescriptor. -/
def writeDescriptor (wr : List Nat) (code : Nat) : List Nat :=
  wr ++ [0x0, typeCodeSmallUlong, code % 256]

/-- encode.go marshalComposite: write a composite (described list) header
and fields into wr, back-patching the list32 size. -/
def marshalComposite (wr : List Nat) (code : Nat) (fields : List marshalField) : List Nat :=
  let lsi := lastSetIdx fields
  if lsi = -1 then
    wr ++ [0x0, typeCodeSmallUlong, code % 256, typeCodeList0]
  else
    let wr1 := writeDescriptor wr code
    let wr2 := wr1 ++ [typeCodeList32]
    let sizeIdx := wr2.length
    let wr3 := wr2 ++ [0, 0, 0, 0]
    let preFieldLen := wr3.length
    let wr4 := wr3 ++ u32be (lsi.toNat + 1)
    let wr5 := wr4 ++ fieldBytes (fields.take (lsi.toNat + 1))
    setU32At wr5 sizeIdx (wr5.length - preFieldLen)

theorem u32be_length (n : Nat) : (u32be n).length = 4 := rfl

theorem u16be_length (n : Nat) : (u16be n).length = 2 := rfl

theorem u64be_length (n : Nat) : (u64be n).length = 8 := rfl

/-- lastSetIdxAux is determined by the last non-omitted index of the
remaining fields. -/
theorem lastSetIdxAux_eq (fields : List marshalField) :
    ∀ (acc : Int) (i : Nat),
      lastSetIdxAux acc i fields =
        match lastNonOmitted fields with
        | some k => ((i + k : Nat) : Int)
        | none => acc := by
  induction fields with
  | nil => intro acc i; rfl
  | cons f fs ih =>
    intro acc i
    simp only [lastSetIdxAux, lastNonOmitted]
    rw [ih]
    cases h : lastNonOmitted fs with
    | some k =>
      simp only []
      congr 1
      omega
    | none =>
      cases hf : f.omitted <;> simp

theorem lastSetIdx_eq (fields : List marshalField) :
    lastSetIdx fields =
      match lastNonOmitted fields with
      | some k => (k : Int)
      | none => -1 := by
  unfold lastSetIdx
  rw [lastSetIdxAux_eq]
  cases lastNonOmitted fields <;> simp

/-- lastNonOmitted is none exactly when every field is omitted. -/
theorem lastNonOmitted_eq_none_iff (fields : List marshalField) :
    lastNonOmitted fields = none ↔ ∀ f ∈ fields, f.omitted = true := by
  induction fields with
  | nil => simp [lastNonOmitted]
  | cons f fs ih =>
    simp only [lastNonOmitted]
    cases h : lastNonOmitted fs with
    | some k =>
      simp only []
      constructor
      · intro hc; exact absurd hc (by simp)
      · intro hall
        have : lastNonOmitted fs = none := ih.mpr (fun g hg => hall g (List.mem_cons_of_mem _ hg))
        rw [h] at this; exact absurd this (by simp)
    | none =>
      cases hf : f.omitted with
      | true =>
        simp only [hf, if_true]
        constructor
        · intro _ g hg
          rcases List.mem_cons.mp hg with rfl | hg'
          · exact hf
          · exact (ih.mp h) g hg'
        · intro _; trivial
      | false =>
        simp only [hf, Bool.false_eq_true, if_false]
        constructor
        · intro hc; exact absurd hc (by simp)
        · intro hall
          have := hall f (List.mem_cons_self f fs)
          rw [hf] at this; exact absurd this (by simp)

/-- When lastNonOmitted is some k, field k is present and every later field
is omitted. -/
theorem lastNonOmitted_eq_some (fields : List marshalField) (k : Nat)
    (h : lastNonOmitted fields = some k) :
    k < fields.length ∧
    (∀ hk : k < fields.length, (fields.get ⟨k, hk⟩).omitted = false) ∧
    (∀ j, k < j → (hj : j < fields.length) → (fields.get ⟨j, hj⟩).omitted = true) := by
  induction fields generalizing k with
  | nil => simp [lastNonOmitted] at h
  | cons f fs ih =>
    simp only [lastNonOmitted] at h
    cases hfs : lastNonOmitted fs with
    | some m =>
      rw [hfs] at h
      simp only [Option.some.injEq] at h
      subst h
      obtain ⟨hm, hget, hafter⟩ := ih m hfs
      refine ⟨by simpa using Nat.succ_lt_succ hm, ?_, ?_⟩
      · intro hk
        simpa using hget hm
      · intro j hj hjlen
        cases j with
        | zero => omega
        | succ j' =>
          have : m < j' := by omega
          simpa using hafter j' this (by simpa using hjlen)
    | none =>
      rw [hfs] at h
      cases hf : f.omitted with
      | true => rw [hf] at h; simp at h
      | false =>
        rw [hf] at h
        simp only [Bool.false_eq_true, if_false, Option.some.injEq] at h
        subst h
        refine ⟨by simp, ?_, ?_⟩
        · intro _; simpa using hf
        · intro j hj hjlen
          cases j with
          | zero => omega
          | succ j' =>
            have hall := (lastNonOmitted_eq_none_iff fs).mp hfs
            have hj' : j' < fs.length := by simpa using hjlen
            simpa using hall (fs.get ⟨j', hj'⟩) (fs.get_mem j' hj')


/-- Back-patching four placeholder bytes that sit right after a prefix A
replaces them with the big-endian encoding of v. -/
theorem setU32At_append (A B : List Nat) (v : Nat) :
    setU32At (A ++ ([0, 0, 0, 0] ++ B)) A.length v = A ++ (u32be v ++ B) := by
  unfold setU32At
  have h1 : (A ++ ([0, 0, 0, 0] ++ B)).take A.length = A := List.take_left A _
  have h2 : (A ++ ([0, 0, 0, 0] ++ B)).drop (A.length + 4) = B := by
    rw [show A ++ ([0, 0, 0, 0] ++ B) = (A ++ [0, 0, 0, 0]) ++ B by simp,
      show A.length + 4 = (A ++ [0, 0, 0, 0] : List Nat).length by simp,
      List.drop_left]
  rw [h1, h2]
  simp

/-- marshalComposite in the all-omitted case: only the four header bytes are
appended. -/
theorem marshalComposite_none (wr : List Nat) (code : Nat) (fields : List marshalField)
    (h : lastNonOmitted fields = none) :
    marshalComposite wr code fields =
      wr ++ [0x0, typeCodeSmallUlong, code % 256, typeCodeList0] := by
  simp [marshalComposite, lastSetIdx_eq, h]

/-- marshalComposite when some field is present: descriptor, list32 header
with back-patched size and count, then the first L+1 fields. -/
theorem marshalComposite_some (wr : List Nat) (code : Nat) (fields : List marshalField)
    (L : Nat) (h : lastNonOmitted fields = some L) :
    marshalComposite wr code fields =
      wr ++ [0x0, typeCodeSmallUlong, code % 256, typeCodeList32]
        ++ u32be (4 + (fieldBytes (fields.take (L + 1))).length)
        ++ u32be (L + 1)
        ++ fieldBytes (fields.take (L + 1)) := by
  unfold marshalComposite
  rw [lastSetIdx_eq, h]
  have hne : ¬((L : Int) = -1) := by omega
  simp only [Int.toNat_ofNat, if_neg hne]
  set A := writeDescriptor wr code ++ [typeCodeList32] with hA
  set fb := fieldBytes (fields.take (L + 1)) with hfb
  have h5 : ((A ++ [0, 0, 0, 0]) ++ u32be (L + 1)) ++ fb
      = A ++ ([0, 0, 0, 0] ++ (u32be (L + 1) ++ fb)) := by simp
  rw [h5]
  have hsz : (A ++ ([0, 0, 0, 0] ++ (u32be (L + 1) ++ fb))).length
      - (A ++ [0, 0, 0, 0]).length = 4 + fb.length := by
    simp [u32be_length]
    omega
  rw [hsz, setU32At_append]
  rw [hA]
  simp [writeDescriptor, List.append_assoc]


/-- C1: for every composite type code and field list, marshalComposite
emits, when every field is omitted, exactly the four bytes 0x00,
smallulong, code, list0; otherwise the descriptor (0x00, smallulong, code)
followed by a list32 whose back-patched 4-byte size equals the number of
bytes written after the size field (the 4 count bytes plus the field
bytes), whose count is L+1 where L is the index of the last non-omitted
field, and whose contents are the null format code for each omitted field
at index at most L and the marshaled encoding for each non-omitted field;
fields after index L contribute no bytes. -/
theorem c1_marshalComposite (wr : List Nat) (code : Nat) (fields : List marshalField) :
    ((∀ f ∈ fields, f.omitted = true) →
      marshalComposite wr code fields =
        wr ++ [0x0, typeCodeSmallUlong, code % 256, typeCodeList0]) ∧
    (¬(∀ f ∈ fields, f.omitted = true) → ∃ L, lastNonOmitted fields = some L) ∧
    (∀ L, lastNonOmitted fields = some L →
      L < fields.length ∧
      (∀ hk : L < fields.length, (fields.get ⟨L, hk⟩).omitted = false) ∧
      (∀ j, L < j → (hj : j < fields.length) → (fields.get ⟨j, hj⟩).omitted = true) ∧
      marshalComposite wr code fields =
        wr ++ [0x0, typeCodeSmallUlong, code % 256, typeCodeList32]
          ++ u32be (4 + (fieldBytes (fields.take (L + 1))).length)
          ++ u32be (L + 1)
          ++ fieldBytes (fields.take (L + 1))) := by
  refine ⟨?_, ?_, ?_⟩
  · intro hall
    exact marshalComposite_none wr code fields ((lastNonOmitted_eq_none_iff fields).mpr hall)
  · intro hnall
    cases hL : lastNonOmitted fields with
    | none => exact absurd ((lastNonOmitted_eq_none_iff fields).mp hL) hnall
    | some L => exact ⟨L, rfl⟩
  · intro L hL
    obtain ⟨h1, h2, h3⟩ := lastNonOmitted_eq_some fields L hL
    exact ⟨h1, h2, h3, marshalComposite_some wr code fields L hL⟩

/-- Witness for c1_marshalComposite: a transfer-code composite with fields
(present, omitted, present, omitted) and an all-omitted composite. -/
theorem c1_marshalComposite_witness :
    marshalComposite [] 0x14
        [⟨[0x43], false⟩, ⟨[], true⟩, ⟨[0x41], false⟩, ⟨[], true⟩]
      = [0x0, 0x53, 0x14, 0xd0, 0, 0, 0, 7, 0, 0, 0, 3, 0x43, 0x40, 0x41] ∧
    marshalComposite [] 0x14 [⟨[], true⟩, ⟨[], true⟩]
      = [0x0, 0x53, 0x14, 0x45] := by
  constructor
  · have h := (c1_marshalComposite [] 0x14
      [⟨[0x43], false⟩, ⟨[], true⟩, ⟨[0x41], false⟩, ⟨[], true⟩]).2.2 2 (by decide)
    exact h.2.2.2.trans (by decide)
  · exact (c1_marshalComposite [] 0x14 [⟨[], true⟩, ⟨[], true⟩]).1 (by decide)


/-- beNat inverts u32be up to the uint32 range. -/
theorem beNat_u32be (n : Nat) : beNat (u32be n) = n % 4294967296 := by
  simp [beNat, u32be]
  omega

/-- beNat inverts u64be up to the uint64 range. -/
theorem beNat_u64be (n : Nat) : beNat (u64be n) = n % 18446744073709551616 := by
  simp [beNat, u64be]
  omega

/-- A frame to be written by writeFrame (frames.go frame): frame type byte,
channel, and the outcome of marshaling the body (the bytes it appends, or
the error marshal returns). -/
structure frame where
  type_ : Nat
  channel : Nat
  body : Except String (List Nat)

/-- encode.go writeFrame: 4 size bytes (back-patched at the end), doff=2,
frame type, 2-byte channel, then the marshaled body; an encoding longer
than the uint32 range is an error. -/
def writeFrame (fr : frame) : Except String (List Nat) :=
  let header := [0, 0, 0, 0, 2, fr.type_ % 256] ++ u16be fr.channel
  match fr.body with
  | Except.error e => Except.error e
  | Except.ok enc =>
    let buf := header ++ enc
    if 4294967295 < buf.length then Except.error "frame too large"
    else Except.ok (setU32At buf 0 buf.length)

/-- C7: for a frame whose body marshals successfully, writeFrame emits the
8-byte header (4-byte size, doff 2, frame type byte, 2-byte channel)
followed by the marshaled body, with the size field back-patched to the
total length of the encoding, which is at least 8; an encoding that would
exceed 2^32 - 1 bytes is rejected with an error. -/
theorem c7_writeFrame (fr : frame) (enc : List Nat) (h : fr.body = Except.ok enc) :
    (8 + enc.length ≤ 4294967295 →
      writeFrame fr =
        Except.ok (u32be (8 + enc.length) ++ [2, fr.type_ % 256] ++ u16be fr.channel ++ enc) ∧
      beNat (u32be (8 + enc.length)) = 8 + enc.length ∧
      8 ≤ beNat (u32be (8 + enc.length))) ∧
    (4294967295 < 8 + enc.length → writeFrame fr = Except.error "frame too large") := by
  unfold writeFrame
  rw [h]
  dsimp only
  constructor
  · intro hle
    rw [if_neg (by simp [u16be]; omega)]
    refine ⟨?_, ?_, ?_⟩
    · congr 1
      have hlen : ([0, 0, 0, 0, 2, fr.type_ % 256] ++ u16be fr.channel ++ enc).length
          = 8 + enc.length := by simp [u16be]; omega
      rw [setU32At, hlen]
      simp [u16be]
    · rw [beNat_u32be, Nat.mod_eq_of_lt (by omega)]
    · rw [beNat_u32be, Nat.mod_eq_of_lt (by omega)]; omega
  · intro hgt
    rw [if_pos (by simp [u16be]; omega)]

/-- Witness for c7_writeFrame: a one-byte body on channel 0, and an
oversized body. -/
theorem c7_writeFrame_witness :
    writeFrame ⟨0, 0, Except.ok [0x41]⟩ = Except.ok [0, 0, 0, 9, 2, 0, 0, 0, 0x41] ∧
    writeFrame ⟨0, 0, Except.ok (List.replicate 4294967295 0)⟩
      = Except.error "frame too large" := by
  constructor
  · have h := (c7_writeFrame ⟨0, 0, Except.ok [0x41]⟩ [0x41] rfl).1 (by decide)
    exact h.1.trans (by rfl)
  · exact (c7_writeFrame ⟨0, 0, Except.ok (List.replicate 4294967295 0)⟩
      (List.replicate 4294967295 0) rfl).2 (by rw [List.length_replicate]; omega)


/-- A UTF-8 continuation byte (0x80..0xBF). -/
def isCont (b : Nat) : Bool := 0x80 ≤ b && b ≤ 0xBF

/-- Go stdlib utf8.ValidString over the byte sequence of the string:
RFC 3629 well-formed UTF-8 (no overlong forms, no surrogates, maximum
code point U+10FFFF). -/
def validUTF8 : List Nat → Bool
  | [] => true
  | b :: rest =>
    if b ≤ 0x7F then validUTF8 rest
    else if b < 0xC2 then false
    else if b ≤ 0xDF then
      match rest with
      | b1 :: r => isCont b1 && validUTF8 r
      | [] => false
    else if b ≤ 0xEF then
      match rest with
      | b1 :: b2 :: r =>
        (if b = 0xE0 then (0xA0 ≤ b1 && b1 ≤ 0xBF : Bool)
         else if b = 0xED then (0x80 ≤ b1 && b1 ≤ 0x9F : Bool)
         else isCont b1) && isCont b2 && validUTF8 r
      | _ => false
    else if b ≤ 0xF4 then
      match rest with
      | b1 :: b2 :: b3 :: r =>
        (if b = 0xF0 then (0x90 ≤ b1 && b1 ≤ 0xBF : Bool)
         else if b = 0xF4 then (0x80 ≤ b1 && b1 ≤ 0x8F : Bool)
         else isCont b1) && isCont b2 && isCont b3 && validUTF8 r
      | _ => false
    else false

/-- encode.go writeString: UTF-8 validation, then str8 for lengths below
256 and str32 below 2^32 - 1; an error leaves the buffer untouched. -/
def writeString (wr : List Nat) (str : List Nat) : List Nat × Option String :=
  if !(validUTF8 str) then (wr, some "not a valid UTF-8 string")
  else
    let l := str.length
    if l < 256 then (wr ++ [typeCodeStr8, l % 256] ++ str, none)
    else if l < 4294967295 then (wr ++ [typeCodeStr32] ++ u32be l ++ str, none)
    else (wr, some "too long")

/-- encode.go writeBinary: vbin8 for lengths below 256 and vbin32 below
2^32 - 1. -/
def writeBinary (wr : List Nat) (bin : List Nat) : List Nat × Option String :=
  let l := bin.length
  if l < 256 then (wr ++ [typeCodeVbin8, l % 256] ++ bin, none)
  else if l < 4294967295 then (wr ++ [typeCodeVbin32] ++ u32be l ++ bin, none)
  else (wr, some "too long")

/-- C8: writeString rejects invalid UTF-8 without writing any byte; a
valid string shorter than 256 bytes becomes str8, a 1-byte length and the
raw bytes; a valid longer string below 2^32 - 1 bytes becomes str32, a
4-byte length and the raw bytes. -/
theorem c8_writeString (wr str : List Nat) :
    (validUTF8 str = false → writeString wr str = (wr, some "not a valid UTF-8 string")) ∧
    (validUTF8 str = true → str.length < 256 →
      writeString wr str = (wr ++ [typeCodeStr8, str.length] ++ str, none)) ∧
    (validUTF8 str = true → 256 ≤ str.length → str.length < 4294967295 →
      writeString wr str = (wr ++ [typeCodeStr32] ++ u32be str.length ++ str, none)) := by
  refine ⟨?_, ?_, ?_⟩
  · intro hv
    simp [writeString, hv]
  · intro hv hlen
    simp [writeString, hv, hlen, Nat.mod_eq_of_lt hlen]
  · intro hv hge hlt
    simp [writeString, hv, hlt]
    intro hcontra
    omega

set_option maxRecDepth 100000 in
/-- Witness for c8_writeString: an invalid lone continuation byte, the
two-byte string hi, and a 300-byte ASCII string. -/
theorem c8_writeString_witness :
    writeString [] [0x80] = ([], some "not a valid UTF-8 string") ∧
    writeString [] [104, 105] = ([0xa1, 2, 104, 105], none) ∧
    writeString [] (List.replicate 300 97)
      = ([0xb1, 0, 0, 1, 44] ++ List.replicate 300 97, none) := by
  refine ⟨?_, ?_, ?_⟩
  · exact (c8_writeString [] [0x80]).1 (by decide)
  · exact ((c8_writeString [] [104, 105]).2.1 (by decide) (by decide)).trans (by rfl)
  · have h := (c8_writeString [] (List.replicate 300 97)).2.2
      (by decide) (by simp) (by simp)
    exact h.trans (by rfl)


/-- uint32 subtraction a - b as performed by Go on uint32 values. -/
def sub32 (a b : Nat) : Nat :=
  (a % 4294967296 + (4294967296 - b % 4294967296)) % 4294967296

/-- uint32 addition a + b as performed by Go on uint32 values. -/
def add32 (a b : Nat) : Nat := (a + b) % 4294967296

/-- The sender-side link state read and written by the flow handler
(sender.go Sender plus link deliveryCount). -/
structure SenderMux where
  deliveryCount : Nat
  availableCredit : Nat
deriving DecidableEq, Repr

/-- The Flow performative fields read by the sender mux (frames.go
performFlow).  The claim concerns flows that carry link-credit, so
linkCredit holds the dereferenced value. -/
structure PerformFlow where
  linkCredit : Nat
  deliveryCount : Option Nat
  echo : Bool
deriving DecidableEq, Repr

/-- sender.go Sender.muxHandleFrame, PerformFlow case: recompute the
available credit as peer link-credit minus local delivery-count, plus the
peer delivery-count when it is present. -/
def muxHandleFlow (s : SenderMux) (fr : PerformFlow) : SenderMux :=
  let linkCredit := sub32 fr.linkCredit s.deliveryCount
  let linkCredit :=
    match fr.deliveryCount with
    | some d => add32 linkCredit d
    | none => linkCredit
  { s with availableCredit := linkCredit }

/-- C4: a peer Flow carrying link-credit L and delivery-count D-prime,
handled while the local delivery-count is D, recomputes the available
credit to L + D-prime - D in uint32 arithmetic (modulo 2^32). -/
theorem c4_flow_credit (D L Dp old : Nat) (e : Bool)
    (hD : D < 4294967296) (hL : L < 4294967296) (hDp : Dp < 4294967296) :
    (muxHandleFlow ⟨D, old⟩ ⟨L, some Dp, e⟩).availableCredit
      = (L + Dp + (4294967296 - D)) % 4294967296 ∧
    (muxHandleFlow ⟨D, old⟩ ⟨L, some Dp, e⟩).deliveryCount = D := by
  constructor
  · show add32 (sub32 L D) Dp = (L + Dp + (4294967296 - D)) % 4294967296
    unfold add32 sub32
    omega
  · rfl

/-- Witness for c4_flow_credit: delivery-count 5, peer link-credit 10,
peer delivery-count 7 gives available credit 12. -/
theorem c4_flow_credit_witness :
    (muxHandleFlow ⟨5, 0⟩ ⟨10, some 7, false⟩).availableCredit
      = (10 + 7 + (4294967296 - 5)) % 4294967296 ∧
    (muxHandleFlow ⟨5, 0⟩ ⟨10, some 7, false⟩).deliveryCount = 5 := by
  exact c4_flow_credit 5 10 7 0 false (by decide) (by decide) (by decide)

/-! Settlement modes (internal/encoding constants): receiver first = 0,
second = 1; sender unsettled = 0, settled = 1, mixed = 2. -/

def ModeFirst : Nat := 0
def ModeSecond : Nat := 1
def ModeUnsettled : Nat := 0
def ModeSettled : Nat := 1
def ModeMixed : Nat := 2

/-- Modelled from the spec: receiverSettleModeValue (a helper outside this
tree) dereferences an optional receiver-settle-mode, substituting the AMQP
field default (first) when the mode is absent; the spec states that the
decoder and encoder treat absent fields as their defaults. -/
def receiverSettleModeValue : Option Nat → Nat
  | none => ModeFirst
  | some m => m

/-- Modelled from the spec: senderSettleModeValue (a helper outside this
tree) dereferences an optional sender-settle-mode, substituting the AMQP
field default (mixed) when the mode is absent. -/
def senderSettleModeValue : Option Nat → Nat
  | none => ModeMixed
  | some m => m

/-- The settlement-mode fields of a link (link.go link). -/
structure LinkSettleState where
  receiverSettleMode : Option Nat
  senderSettleMode : Option Nat
deriving DecidableEq, Repr

/-- link.go setSettleModes: fail when a locally requested mode differs
from the mode in the peer Attach response; otherwise adopt the response
values. -/
def setSettleModes (l : LinkSettleState) (respRcv respSnd : Option Nat) :
    Except String LinkSettleState :=
  let localRecvSettle := receiverSettleModeValue l.receiverSettleMode
  let respRecvSettle := receiverSettleModeValue respRcv
  if l.receiverSettleMode ≠ none ∧ localRecvSettle ≠ respRecvSettle then
    Except.error "amqp: receiver settlement mode mismatch"
  else
    let l1 : LinkSettleState := { l with receiverSettleMode := some respRecvSettle }
    let localSendSettle := senderSettleModeValue l1.senderSettleMode
    let respSendSettle := senderSettleModeValue respSnd
    if l1.senderSettleMode ≠ none ∧ localSendSettle ≠ respSendSettle then
      Except.error "amqp: sender settlement mode mismatch"
    else
      Except.ok { l1 with senderSettleMode := some respSendSettle }

/-- C6: setSettleModes errors exactly when a settlement mode was set
locally and the peer response carries (after field defaulting) a different
value for it; on success both modes are set to the response values. -/
theorem c6_setSettleModes (l : LinkSettleState) (respRcv respSnd : Option Nat) :
    ((∃ e, setSettleModes l respRcv respSnd = Except.error e) ↔
      ((∃ m, l.receiverSettleMode = some m ∧ m ≠ receiverSettleModeValue respRcv) ∨
       (∃ m, l.senderSettleMode = some m ∧ m ≠ senderSettleModeValue respSnd))) ∧
    (∀ l2, setSettleModes l respRcv respSnd = Except.ok l2 →
      l2 = ⟨some (receiverSettleModeValue respRcv), some (senderSettleModeValue respSnd)⟩) := by
  unfold setSettleModes
  dsimp only
  by_cases h1 : l.receiverSettleMode ≠ none ∧
      receiverSettleModeValue l.receiverSettleMode ≠ receiverSettleModeValue respRcv
  · rw [if_pos h1]
    constructor
    · constructor
      · intro _
        left
        obtain ⟨hne, hdiff⟩ := h1
        cases hm : l.receiverSettleMode with
        | none => exact absurd hm hne
        | some m =>
          refine ⟨m, rfl, ?_⟩
          rw [hm] at hdiff
          exact hdiff
      · intro _
        exact ⟨"amqp: receiver settlement mode mismatch", rfl⟩
    · intro l2 hl2
      exact absurd hl2 (by simp)
  · rw [if_neg h1]
    by_cases h2 : l.senderSettleMode ≠ none ∧
        senderSettleModeValue l.senderSettleMode ≠ senderSettleModeValue respSnd
    · rw [if_pos h2]
      constructor
      · constructor
        · intro _
          right
          obtain ⟨hne, hdiff⟩ := h2
          cases hm : l.senderSettleMode with
          | none => exact absurd hm hne
          | some m =>
            refine ⟨m, rfl, ?_⟩
            rw [hm] at hdiff
            exact hdiff
        · intro _
          exact ⟨"amqp: sender settlement mode mismatch", rfl⟩
      · intro l2 hl2
        exact absurd hl2 (by simp)
    · rw [if_neg h2]
      constructor
      · constructor
        · intro ⟨e, he⟩
          exact absurd he (by simp)
        · intro hcases
          exfalso
          rcases hcases with ⟨m, hm, hdiff⟩ | ⟨m, hm, hdiff⟩
          · exact h1 ⟨by simp [hm], by rw [hm]; exact hdiff⟩
          · exact h2 ⟨by simp [hm], by rw [hm]; exact hdiff⟩
      · intro l2 hl2
        simp only [Except.ok.injEq] at hl2
        exact hl2.symm

/-- Witness for c6_setSettleModes: a link with receiver mode second
requested and a peer response of first errors; an unconstrained link
adopts the response values. -/
theorem c6_setSettleModes_witness :
    ((∃ e, setSettleModes ⟨some 1, none⟩ (some 0) (some 0) = Except.error e) ↔
      ((∃ m, (⟨some 1, none⟩ : LinkSettleState).receiverSettleMode = some m ∧
          m ≠ receiverSettleModeValue (some 0)) ∨
       (∃ m, (⟨some 1, none⟩ : LinkSettleState).senderSettleMode = some m ∧
          m ≠ senderSettleModeValue (some 0)))) ∧
    (∀ l2, setSettleModes ⟨none, none⟩ (some 0) (some 1) = Except.ok l2 →
      l2 = ⟨some 0, some 1⟩) := by
  constructor
  · exact (c6_setSettleModes ⟨some 1, none⟩ (some 0) (some 0)).1
  · intro l2 hl2
    exact (c6_setSettleModes ⟨none, none⟩ (some 0) (some 1)).2 l2 hl2


/-- The transfer-frame fields set by the sender send loop (frames.go
performTransfer, restricted to the fields the loop writes).
hasDeliveryID records whether DeliveryID is non-nil (the loop sets it to
the needsDeliveryID sentinel on the first frame and nil afterwards). -/
structure PerformTransfer where
  hasDeliveryID : Bool
  deliveryTag : Option (List Nat)
  messageFormat : Option Nat
  settled : Bool
  more : Bool
  payload : List Nat
deriving DecidableEq, Repr

/-- The for fr.More loop of sender.go Sender.send, with fuel for
termination: each iteration takes one chunk of at most maxPayloadSize
bytes off the remaining payload and emits one transfer; More is true
exactly while bytes remain; the identifying fields are cleared after the
first frame.  The wrapper sendLoop supplies fuel = remaining.length, which
suffices because every iteration consumes at least one byte whenever
0 < maxPayloadSize. -/
def sendLoopF (maxPayloadSize : Nat) (tag : List Nat) (fmt : Nat) (senderSettled : Bool) :
    Nat → Bool → List Nat → List PerformTransfer
  | 0, _, _ => []
  | _ + 1, _, [] => []
  | fuel + 1, first, remaining =>
    let chunk := remaining.take maxPayloadSize
    let rest := remaining.drop maxPayloadSize
    let more := !rest.isEmpty
    { hasDeliveryID := first,
      deliveryTag := if first then some tag else none,
      messageFormat := if first then some fmt else none,
      settled := if more then false else senderSettled,
      more := more,
      payload := chunk }
      :: sendLoopF maxPayloadSize tag fmt senderSettled fuel false rest

/-- The transfers emitted by one call of Sender.send for a marshaled
payload. -/
def sendLoop (maxPayloadSize : Nat) (tag : List Nat) (fmt : Nat) (senderSettled : Bool)
    (first : Bool) (remaining : List Nat) : List PerformTransfer :=
  sendLoopF maxPayloadSize tag fmt senderSettled remaining.length first remaining

/-- Modelled from the spec: Message.Marshal for a message whose body is a
single data section (message.go is outside this tree).  The spec fixes the
wire form as the described-type header 0x00 0x53 0x75 followed by the
binary-encoded body bytes. -/
def messageMarshal (wr : List Nat) (body : List Nat) : List Nat × Option String :=
  writeBinary (wr ++ [0x00, typeCodeSmallUlong, 0x75]) body

/-- The message fields read by Sender.send. -/
structure Message where
  deliveryTag : List Nat
  format : Nat
  sendSettled : Bool
  body : List Nat
deriving DecidableEq, Repr

/-- The sender fields read and written by Sender.Send / Sender.send
(sender.go Sender, link, and the connection peerMaxFrameSize). -/
structure SenderModel where
  maxMessageSize : Nat
  peerMaxFrameSize : Nat
  senderSettleMode : Option Nat
  nextDeliveryTag : Nat
  linkDone : Bool
  doneErr : String
deriving DecidableEq, Repr

/-- The error outcomes of Sender.Send / Sender.send. -/
inductive SendError where
  | deliveryTagTooLarge
  | marshalError (e : String)
  | messageTooLarge
  | linkDone (doneErr : String)
deriving DecidableEq, Repr

def maxDeliveryTagLength : Nat := 32
def maxTransferFrameHeader : Nat := 66

/-- sender.go Sender.send: check the delivery tag length, marshal the
message, check it against max-message-size, assign a delivery tag from
the per-sender counter when the caller supplied none, and emit the chunked
transfer frames. -/
def send (s : SenderModel) (msg : Message) :
    Except SendError (SenderModel × List PerformTransfer) :=
  if maxDeliveryTagLength < msg.deliveryTag.length then
    Except.error SendError.deliveryTagTooLarge
  else
    match messageMarshal [] msg.body with
    | (_, some e) => Except.error (SendError.marshalError e)
    | (buf, none) =>
      if s.maxMessageSize ≠ 0 ∧ s.maxMessageSize < buf.length then
        Except.error SendError.messageTooLarge
      else
        let maxPayloadSize := s.peerMaxFrameSize - maxTransferFrameHeader
        let senderSettled :=
          match s.senderSettleMode with
          | some m => m == ModeSettled || (m == ModeMixed && msg.sendSettled)
          | none => false
        let deliveryTag :=
          if msg.deliveryTag.isEmpty then u64be s.nextDeliveryTag else msg.deliveryTag
        let s1 :=
          if msg.deliveryTag.isEmpty then
            { s with nextDeliveryTag := (s.nextDeliveryTag + 1) % 18446744073709551616 }
          else s
        Except.ok (s1, sendLoop maxPayloadSize deliveryTag msg.format senderSettled true buf)

/-- sender.go Sender.Send entry: when the link has already terminated
(done closed), return the stored terminal error without calling send. -/
def Send (s : SenderModel) (msg : Message) :
    Except SendError (SenderModel × List PerformTransfer) :=
  if s.linkDone then Except.error (SendError.linkDone s.doneErr) else send s msg


theorem sendLoopF_nil (maxP : Nat) (tag : List Nat) (fmt : Nat) (ss : Bool)
    (fuel : Nat) (first : Bool) :
    sendLoopF maxP tag fmt ss fuel first [] = [] := by
  cases fuel <;> rfl

/-- The emitted chunks concatenate back to the payload. -/
theorem sendLoopF_join (maxP : Nat) (tag : List Nat) (fmt : Nat) (ss : Bool)
    (hm : 0 < maxP) :
    ∀ (fuel : Nat) (payload : List Nat) (first : Bool), payload.length ≤ fuel →
      ((sendLoopF maxP tag fmt ss fuel first payload).map PerformTransfer.payload).flatten
        = payload := by
  intro fuel
  induction fuel with
  | zero =>
    intro payload first hlen
    have hp : payload = [] := List.eq_nil_of_length_eq_zero (by omega)
    subst hp
    rfl
  | succ n ih =>
    intro payload first hlen
    cases payload with
    | nil => rfl
    | cons b rest =>
      simp only [sendLoopF, List.map_cons, List.flatten_cons]
      rw [ih ((b :: rest).drop maxP) false (by simp [List.length_drop] at hlen ⊢; omega)]
      exact List.take_append_drop maxP (b :: rest)

/-- A nonempty payload yields at least one transfer. -/
theorem sendLoopF_ne_nil (maxP : Nat) (tag : List Nat) (fmt : Nat) (ss : Bool)
    (fuel : Nat) (first : Bool) (payload : List Nat)
    (hp : payload ≠ []) (hlen : payload.length ≤ fuel) :
    sendLoopF maxP tag fmt ss fuel first payload ≠ [] := by
  cases fuel with
  | zero =>
    exfalso
    exact hp (List.eq_nil_of_length_eq_zero (by omega))
  | succ n =>
    cases payload with
    | nil => exact absurd rfl hp
    | cons b rest => simp [sendLoopF]

/-- Every emitted chunk is nonempty and no longer than maxPayloadSize. -/
theorem sendLoopF_chunks (maxP : Nat) (tag : List Nat) (fmt : Nat) (ss : Bool)
    (hm : 0 < maxP) :
    ∀ (fuel : Nat) (payload : List Nat) (first : Bool), payload.length ≤ fuel →
      ∀ t ∈ sendLoopF maxP tag fmt ss fuel first payload,
        t.payload.length ≤ maxP ∧ t.payload ≠ [] := by
  intro fuel
  induction fuel with
  | zero =>
    intro payload first hlen t ht
    have hp : payload = [] := List.eq_nil_of_length_eq_zero (by omega)
    subst hp
    simp [sendLoopF] at ht
  | succ n ih =>
    intro payload first hlen t ht
    cases payload with
    | nil => simp [sendLoopF] at ht
    | cons b rest =>
      simp only [sendLoopF, List.mem_cons] at ht
      rcases ht with rfl | ht
      · constructor
        · simpa using Nat.min_le_left maxP (b :: rest).length
        · obtain ⟨m, rfl⟩ : ∃ m, maxP = m + 1 := ⟨maxP - 1, by omega⟩
          simp
      · exact ih ((b :: rest).drop maxP) false
          (by simp [List.length_drop] at hlen ⊢; omega) t ht


/-- The per-frame flags of the send loop: More is true on every frame but
the last; the delivery id, delivery tag and message format are set on the
first frame only. -/
theorem sendLoopF_flags (maxP : Nat) (tag : List Nat) (fmt : Nat) (ss : Bool)
    (hm : 0 < maxP) :
    ∀ (fuel : Nat) (payload : List Nat) (first : Bool),
      payload.length ≤ fuel → payload ≠ [] →
      (sendLoopF maxP tag fmt ss fuel first payload).map PerformTransfer.more
          = List.replicate ((sendLoopF maxP tag fmt ss fuel first payload).length - 1) true
              ++ [false] ∧
      (sendLoopF maxP tag fmt ss fuel first payload).map PerformTransfer.hasDeliveryID
          = first
              :: List.replicate ((sendLoopF maxP tag fmt ss fuel first payload).length - 1)
                  false ∧
      (sendLoopF maxP tag fmt ss fuel first payload).map PerformTransfer.deliveryTag
          = (if first then some tag else none)
              :: List.replicate ((sendLoopF maxP tag fmt ss fuel first payload).length - 1)
                  none ∧
      (sendLoopF maxP tag fmt ss fuel first payload).map PerformTransfer.messageFormat
          = (if first then some fmt else none)
              :: List.replicate ((sendLoopF maxP tag fmt ss fuel first payload).length - 1)
                  none := by
  intro fuel
  induction fuel with
  | zero =>
    intro payload first hlen hp
    exact absurd (List.eq_nil_of_length_eq_zero (by omega)) hp
  | succ n ih =>
    intro payload first hlen hp
    cases payload with
    | nil => exact absurd rfl hp
    | cons b rest =>
      have hlen2 : ((b :: rest).drop maxP).length ≤ n := by
        simp [List.length_drop] at hlen ⊢; omega
      by_cases hrest : (b :: rest).drop maxP = []
      · simp only [sendLoopF, hrest, sendLoopF_nil, List.isEmpty_nil, Bool.not_true,
          List.map_cons, List.map_nil, List.length_cons, List.length_nil]
        refine ⟨?_, ?_, ?_, ?_⟩ <;> simp
      · have htail := sendLoopF_ne_nil maxP tag fmt ss n false ((b :: rest).drop maxP)
          hrest hlen2
        have hlenpos : 0 < (sendLoopF maxP tag fmt ss n false ((b :: rest).drop maxP)).length :=
          List.length_pos.mpr htail
        obtain ⟨h1, h2, h3, h4⟩ := ih ((b :: rest).drop maxP) false hlen2 hrest
        have hie : ((b :: rest).drop maxP).isEmpty = false := by
          simpa [List.isEmpty_iff] using hrest
        simp only [sendLoopF, hie, Bool.not_false, List.map_cons, List.length_cons]
        refine ⟨?_, ?_, ?_, ?_⟩
        · rw [h1]
          rw [show (sendLoopF maxP tag fmt ss n false ((b :: rest).drop maxP)).length + 1 - 1
              = ((sendLoopF maxP tag fmt ss n false ((b :: rest).drop maxP)).length - 1) + 1
              by omega]
          rw [List.replicate_succ]
          simp
        · rw [h2]
          rw [show (sendLoopF maxP tag fmt ss n false ((b :: rest).drop maxP)).length + 1 - 1
              = ((sendLoopF maxP tag fmt ss n false ((b :: rest).drop maxP)).length - 1) + 1
              by omega]
          rw [List.replicate_succ]
        · rw [h3]
          rw [show (sendLoopF maxP tag fmt ss n false ((b :: rest).drop maxP)).length + 1 - 1
              = ((sendLoopF maxP tag fmt ss n false ((b :: rest).drop maxP)).length - 1) + 1
              by omega]
          rw [List.replicate_succ]
          simp
        · rw [h4]
          rw [show (sendLoopF maxP tag fmt ss n false ((b :: rest).drop maxP)).length + 1 - 1
              = ((sendLoopF maxP tag fmt ss n false ((b :: rest).drop maxP)).length - 1) + 1
              by omega]
          rw [List.replicate_succ]
          simp


/-- A marshaled message always starts with the data-section descriptor, so
it is never empty. -/
theorem messageMarshal_ne_nil (body : List Nat) : (messageMarshal [] body).1 ≠ [] := by
  unfold messageMarshal writeBinary
  dsimp only
  split
  · simp
  · split <;> simp

/-- Inversion of a successful send: all checks passed and the result is
the chunk loop applied to the marshaled message. -/
theorem send_ok_inv (s : SenderModel) (msg : Message) (s1 : SenderModel)
    (ts : List PerformTransfer) (hok : send s msg = Except.ok (s1, ts)) :
    msg.deliveryTag.length ≤ maxDeliveryTagLength ∧
    (messageMarshal [] msg.body).2 = none ∧
    ¬(s.maxMessageSize ≠ 0 ∧ s.maxMessageSize < (messageMarshal [] msg.body).1.length) ∧
    s1 = (if msg.deliveryTag.isEmpty then
            { s with nextDeliveryTag := (s.nextDeliveryTag + 1) % 18446744073709551616 }
          else s) ∧
    ts = sendLoop (s.peerMaxFrameSize - maxTransferFrameHeader)
          (if msg.deliveryTag.isEmpty then u64be s.nextDeliveryTag else msg.deliveryTag)
          msg.format
          (match s.senderSettleMode with
            | some m => m == ModeSettled || (m == ModeMixed && msg.sendSettled)
            | none => false)
          true (messageMarshal [] msg.body).1 := by
  unfold send at hok
  by_cases h1 : maxDeliveryTagLength < msg.deliveryTag.length
  · rw [if_pos h1] at hok
    exact absurd hok (by simp)
  · rw [if_neg h1] at hok
    cases hmm : messageMarshal [] msg.body with
    | mk buf err =>
      rw [hmm] at hok
      cases err with
      | some e =>
        exact absurd hok (by simp)
      | none =>
        dsimp only at hok
        by_cases h2 : s.maxMessageSize ≠ 0 ∧ s.maxMessageSize < buf.length
        · rw [if_pos h2] at hok
          exact absurd hok (by simp)
        · rw [if_neg h2] at hok
          simp only [Except.ok.injEq, Prod.mk.injEq] at hok
          exact ⟨by omega, rfl, h2, hok.1.symm, hok.2.symm⟩

/-- C2: for every message accepted by Sender.send, the marshaled message
bytes are split into successive nonempty chunks of at most
peerMaxFrameSize - 66 bytes; one Transfer is emitted per chunk, More is
true on every chunk but the last, and the delivery id, delivery tag and
message format are set on the first transfer only (absent on every
continuation). -/
theorem c2_send_chunking (s : SenderModel) (msg : Message) (s1 : SenderModel)
    (ts : List PerformTransfer)
    (hframe : maxTransferFrameHeader < s.peerMaxFrameSize)
    (hok : send s msg = Except.ok (s1, ts)) :
    (ts.map PerformTransfer.payload).flatten = (messageMarshal [] msg.body).1 ∧
    (∀ t ∈ ts, t.payload.length ≤ s.peerMaxFrameSize - maxTransferFrameHeader ∧
      t.payload ≠ []) ∧
    ts.map PerformTransfer.more = List.replicate (ts.length - 1) true ++ [false] ∧
    ts.map PerformTransfer.hasDeliveryID = true :: List.replicate (ts.length - 1) false ∧
    ts.map PerformTransfer.deliveryTag
      = some (if msg.deliveryTag.isEmpty then u64be s.nextDeliveryTag else msg.deliveryTag)
          :: List.replicate (ts.length - 1) none ∧
    ts.map PerformTransfer.messageFormat
      = some msg.format :: List.replicate (ts.length - 1) none := by
  obtain ⟨-, -, -, -, hts⟩ := send_ok_inv s msg s1 ts hok
  have hm : 0 < s.peerMaxFrameSize - maxTransferFrameHeader := by omega
  have hnn := messageMarshal_ne_nil msg.body
  subst hts
  unfold sendLoop
  obtain ⟨f1, f2, f3, f4⟩ := sendLoopF_flags (s.peerMaxFrameSize - maxTransferFrameHeader)
    (if msg.deliveryTag.isEmpty then u64be s.nextDeliveryTag else msg.deliveryTag)
    msg.format
    (match s.senderSettleMode with
      | some m => m == ModeSettled || (m == ModeMixed && msg.sendSettled)
      | none => false)
    hm (messageMarshal [] msg.body).1.length (messageMarshal [] msg.body).1 true
    le_rfl hnn
  refine ⟨?_, ?_, f1, ?_, ?_, ?_⟩
  · exact sendLoopF_join _ _ _ _ hm _ _ _ le_rfl
  · exact sendLoopF_chunks _ _ _ _ hm _ _ _ le_rfl
  · simpa using f2
  · simpa using f3
  · simpa using f4

/-- Witness for c2_send_chunking: peer max-frame-size 128, a 3-byte body
and a caller-supplied 1-byte tag give a single unfragmented transfer. -/
theorem c2_send_chunking_witness :
    (([⟨true, some [7], some 0, false, false, [0, 83, 117, 160, 3, 1, 2, 3]⟩] :
        List PerformTransfer).map PerformTransfer.payload).flatten
      = (messageMarshal [] [1, 2, 3]).1 ∧
    ([⟨true, some [7], some 0, false, false, [0, 83, 117, 160, 3, 1, 2, 3]⟩] :
        List PerformTransfer).map PerformTransfer.more
      = List.replicate 0 true ++ [false] := by
  have h := c2_send_chunking ⟨0, 128, none, 0, false, ""⟩ ⟨[7], 0, false, [1, 2, 3]⟩
    ⟨0, 128, none, 0, false, ""⟩
    [⟨true, some [7], some 0, false, false, [0, 83, 117, 160, 3, 1, 2, 3]⟩]
    (by decide) (by rfl)
  exact ⟨h.1, by simpa using h.2.2.1⟩


/-- link.go attach: adopt the response max-message-size when no local
limit was set or the response value is smaller. -/
def resolveMaxMessageSize (localMax respMax : Nat) : Nat :=
  if localMax = 0 || respMax < localMax then respMax else localMax

/-- C5: after the attach handshake the effective max-message-size is the
response value when no local limit was set and the minimum of the two
limits otherwise (0 meaning unlimited); send fails with the
message-too-large error exactly when the resolved limit is non-zero and
the marshaled message is longer. -/
theorem c5_max_message_size (localMax respMax : Nat) (s : SenderModel) (msg : Message)
    (htag : msg.deliveryTag.length ≤ maxDeliveryTagLength)
    (hmars : (messageMarshal [] msg.body).2 = none) :
    resolveMaxMessageSize localMax respMax
      = (if localMax = 0 then respMax else min localMax respMax) ∧
    (send s msg = Except.error SendError.messageTooLarge ↔
      s.maxMessageSize ≠ 0 ∧ s.maxMessageSize < (messageMarshal [] msg.body).1.length) := by
  constructor
  · unfold resolveMaxMessageSize
    by_cases h0 : localMax = 0
    · simp [h0]
    · by_cases hlt : respMax < localMax
      · simp [h0, hlt]
        omega
      · simp [h0, hlt]
        omega
  · unfold send
    rw [if_neg (by omega)]
    cases hmm : messageMarshal [] msg.body with
    | mk buf err =>
      cases err with
      | some e =>
        rw [hmm] at hmars
        simp at hmars
      | none =>
        dsimp only
        by_cases h2 : s.maxMessageSize ≠ 0 ∧ s.maxMessageSize < buf.length
        · rw [if_pos h2]
          exact iff_of_true rfl h2
        · rw [if_neg h2]
          constructor
          · intro hc
            exact absurd hc (by simp)
          · intro hc
            exact absurd hc h2

/-- Witness for c5_max_message_size: local limit 5 and peer limit 3
resolve to 3; a sender with limit 4 rejects a 3-byte body whose encoding
is 8 bytes long. -/
theorem c5_max_message_size_witness :
    resolveMaxMessageSize 5 3 = (if 5 = 0 then 3 else min 5 3) ∧
    (send ⟨4, 128, none, 0, false, ""⟩ ⟨[], 0, false, [1, 2, 3]⟩
        = Except.error SendError.messageTooLarge ↔
      (4 : Nat) ≠ 0 ∧ 4 < (messageMarshal [] [1, 2, 3]).1.length) := by
  exact c5_max_message_size 5 3 ⟨4, 128, none, 0, false, ""⟩ ⟨[], 0, false, [1, 2, 3]⟩
    (by decide) (by decide)

/-- C9: a delivery tag longer than 32 bytes makes send fail before
marshaling or enqueuing anything; with no caller tag, the assigned tag is
the 8-byte big-endian encoding of the per-sender counter, the counter
advances by exactly one (modulo 2^64), and consecutive assigned tags
decode to strictly increasing values while the counter does not wrap. -/
theorem c9_delivery_tag (s : SenderModel) (msg : Message)
    (hframe : maxTransferFrameHeader < s.peerMaxFrameSize) :
    (maxDeliveryTagLength < msg.deliveryTag.length →
      send s msg = Except.error SendError.deliveryTagTooLarge) ∧
    (msg.deliveryTag = [] → ∀ s1 ts, send s msg = Except.ok (s1, ts) →
      s1.nextDeliveryTag = (s.nextDeliveryTag + 1) % 18446744073709551616 ∧
      ts.map PerformTransfer.deliveryTag
        = some (u64be s.nextDeliveryTag) :: List.replicate (ts.length - 1) none) ∧
    (s.nextDeliveryTag + 1 < 18446744073709551616 →
      beNat (u64be s.nextDeliveryTag)
        < beNat (u64be ((s.nextDeliveryTag + 1) % 18446744073709551616))) := by
  refine ⟨?_, ?_, ?_⟩
  · intro hlong
    unfold send
    rw [if_pos hlong]
  · intro hempty s1 ts hok
    obtain ⟨-, -, -, hs1, hts⟩ := send_ok_inv s msg s1 ts hok
    have hie : msg.deliveryTag.isEmpty = true := by simp [hempty]
    constructor
    · rw [hs1, if_pos hie]
    · have hm : 0 < s.peerMaxFrameSize - maxTransferFrameHeader := by omega
      have hnn := messageMarshal_ne_nil msg.body
      obtain ⟨-, -, f3, -⟩ := sendLoopF_flags (s.peerMaxFrameSize - maxTransferFrameHeader)
        (if msg.deliveryTag.isEmpty then u64be s.nextDeliveryTag else msg.deliveryTag)
        msg.format
        (match s.senderSettleMode with
          | some m => m == ModeSettled || (m == ModeMixed && msg.sendSettled)
          | none => false)
        hm (messageMarshal [] msg.body).1.length (messageMarshal [] msg.body).1 true
        le_rfl hnn
      rw [hts]
      unfold sendLoop
      rw [f3]
      simp [hie]
  · intro hlt
    rw [beNat_u64be, beNat_u64be]
    omega


/-- Witness for c9_delivery_tag: a 33-byte tag is rejected; a tagless send
from counter 0 assigns tag u64be 0 and advances the counter to 1. -/
theorem c9_delivery_tag_witness :
    send ⟨0, 128, none, 0, false, ""⟩ ⟨List.replicate 33 0, 0, false, []⟩
      = Except.error SendError.deliveryTagTooLarge ∧
    (⟨0, 128, none, 1, false, ""⟩ : SenderModel).nextDeliveryTag
      = (0 + 1) % 18446744073709551616 ∧
    ([⟨true, some (u64be 0), some 0, false, false, [0, 83, 117, 160, 3, 1, 2, 3]⟩] :
        List PerformTransfer).map PerformTransfer.deliveryTag
      = some (u64be 0) :: List.replicate 0 none ∧
    beNat (u64be 0) < beNat (u64be ((0 + 1) % 18446744073709551616)) := by
  have h2 := (c9_delivery_tag ⟨0, 128, none, 0, false, ""⟩ ⟨[], 0, false, [1, 2, 3]⟩
    (by decide)).2.1 rfl ⟨0, 128, none, 1, false, ""⟩
    [⟨true, some (u64be 0), some 0, false, false, [0, 83, 117, 160, 3, 1, 2, 3]⟩] (by rfl)
  refine ⟨?_, h2.1, by simpa using h2.2, ?_⟩
  · exact (c9_delivery_tag ⟨0, 128, none, 0, false, ""⟩
      ⟨List.replicate 33 0, 0, false, []⟩ (by decide)).1 (by simp [maxDeliveryTagLength])
  · exact (c9_delivery_tag ⟨0, 128, none, 0, false, ""⟩ ⟨[], 0, false, [1, 2, 3]⟩
      (by decide)).2.2 (by decide)

/-- C10: when the link has already terminated, Sender.Send returns the
stored terminal error immediately, without marshaling the message or
emitting any transfer. -/
theorem c10_send_dead_link (s : SenderModel) (msg : Message) (h : s.linkDone = true) :
    Send s msg = Except.error (SendError.linkDone s.doneErr) := by
  unfold Send
  rw [if_pos h]

/-- Witness for c10_send_dead_link. -/
theorem c10_send_dead_link_witness :
    Send ⟨0, 4096, none, 0, true, "link detached"⟩ ⟨[], 0, false, [1]⟩
      = Except.error (SendError.linkDone "link detached") :=
  c10_send_dead_link ⟨0, 4096, none, 0, true, "link detached"⟩ ⟨[], 0, false, [1]⟩ rfl

/-- The sender of the multi-transfer scenario: peer max-frame-size 128,
no message-size limit, unsettled mode, fresh tag counter. -/
def c3sender : SenderModel := ⟨0, 128, some ModeUnsettled, 0, false, ""⟩

/-- The message of the multi-transfer scenario: a 512-byte body and no
caller-supplied delivery tag. -/
def c3message : Message := ⟨[], 0, false, List.replicate 512 0⟩

set_option maxRecDepth 100000 in
/-- C3 counterexample: with peer max-frame-size 128 a 512-byte payload
marshals to 520 bytes and is cut into chunks of 62, so the sender emits 9
transfer frames, not 8. -/
theorem c3_counterexample :
    ((send c3sender c3message).toOption.map fun p => p.2.length) = some 9 ∧
    ((send c3sender c3message).toOption.map fun p => p.2.length) ≠ some 8 := by
  have h9 : ((send c3sender c3message).toOption.map fun p => p.2.length) = some 9 := rfl
  refine ⟨h9, fun hc => ?_⟩
  have h98 : (some 9 : Option Nat) = some 8 := h9.symm.trans hc
  simp at h98

set_option maxRecDepth 100000 in
/-- C3 amended: when the peer advertises max-frame-size 128 and a message
with a 512-byte payload is sent, the sender emits exactly 9 transfer
frames, with delivery id, delivery tag and message format present only on
the first, more true on the first eight, and more false on the last. -/
theorem c3_amended :
    ((send c3sender c3message).toOption.map fun p => p.2.length) = some 9 ∧
    ((send c3sender c3message).toOption.map fun p => p.2.map PerformTransfer.hasDeliveryID)
      = some (true :: List.replicate 8 false) ∧
    ((send c3sender c3message).toOption.map fun p => p.2.map PerformTransfer.deliveryTag)
      = some (some (u64be 0) :: List.replicate 8 none) ∧
    ((send c3sender c3message).toOption.map fun p => p.2.map PerformTransfer.messageFormat)
      = some (some 0 :: List.replicate 8 none) ∧
    ((send c3sender c3message).toOption.map fun p => p.2.map PerformTransfer.more)
      = some (List.replicate 8 true ++ [false]) :=
  ⟨rfl, rfl, rfl, rfl, rfl⟩

end Amqp
